import Mathlib

set_option maxHeartbeats 1000000

namespace CopyTo

/-- Paths and other JavaScript strings are modelled as lists of characters. -/
abbrev Path := List Char

/-- An entry in the modelled file system: a file with abstract contents, or a
directory. -/
inductive Entry where
  | file (data : Nat) : Entry
  | dir : Entry
deriving DecidableEq

/-- The modelled file system: an association list from paths to entries, the
first binding for a path winning. -/
abbrev FS := List (Path × Entry)

def lookupFS : FS → Path → Option Entry
  | [], _ => none
  | (p, e) :: rest, q => if p = q then some e else lookupFS rest q

def insertFS (fs : FS) (p : Path) (e : Entry) : FS := (p, e) :: fs

/-- Effect of the host copy primitive (vscode.workspace.fs.copy with the
overwrite flag) on the modelled file system: the target now holds a duplicate
of the source entry.  A missing source would make the real primitive throw,
which the model covers through the host error oracle, so the default entry in
that branch is never relied upon. -/
def fsCopy (fs : FS) (src tgt : Path) : FS :=
  insertFS fs tgt ((lookupFS fs src).getD Entry.dir)

/-- JavaScript String.prototype.startsWith on char lists:
jsStartsWith s p decides whether p is an initial run of s. -/
def jsStartsWith : Path → Path → Bool
  | _, [] => true
  | [], _ :: _ => false
  | c :: s, d :: p => if c = d then jsStartsWith s p else false

/-- Helper for splitSlash: extend the first chunk by one character. -/
def consHead (c : Char) : List Path → List Path
  | [] => [[c]]
  | s :: ss => (c :: s) :: ss

/-- JavaScript split on the slash character, as performed segment-wise by
Node's path normalisation. -/
def splitSlash : Path → List Path
  | [] => [[]]
  | c :: cs => if c = '/' then [] :: splitSlash cs else consHead c (splitSlash cs)

/-- Joining a list of segments with slash separators, the inverse of
splitSlash on slash-free segments. -/
def intercalateSlash : List Path → Path
  | [] => []
  | [s] => s
  | s :: s2 :: ss => s ++ '/' :: intercalateSlash (s2 :: ss)

/-- One step of Node's normalizeString segment processing: empty and dot
segments are dropped, a dot-dot segment pops the previous segment (or is kept,
respectively dropped, above the root according to the allow flag), and any
other segment is pushed. -/
def step (allow : Bool) (stack : List Path) (seg : Path) : List Path :=
  if seg = [] ∨ seg = ['.'] then stack
  else if seg = ['.', '.'] then
    match stack with
    | [] => if allow then [seg] else []
    | top :: rest => if top = ['.', '.'] then (if allow then seg :: stack else stack) else rest
  else seg :: stack

/-- Node's normalizeString: resolve dot and dot-dot segments and collapse
repeated separators. -/
def normalizeSegs (allow : Bool) (p : Path) : Path :=
  intercalateSlash (((splitSlash p).foldl (step allow) []).reverse)

/-- Whether the path's final character is a slash. -/
def endsWithSlash (p : Path) : Bool :=
  match p.reverse with
  | [] => false
  | c :: _ => decide (c = '/')

/-- Node path.posix.normalize. -/
def posixNormalize : Path → Path
  | [] => ['.']
  | c :: cs =>
    if c = '/' then
      let body := normalizeSegs false (c :: cs)
      if body = [] then ['/']
      else '/' :: (if endsWithSlash (c :: cs) then body ++ ['/'] else body)
    else
      let body := normalizeSegs true (c :: cs)
      if body = [] then (if endsWithSlash (c :: cs) then ['.', '/'] else ['.'])
      else (if endsWithSlash (c :: cs) then body ++ ['/'] else body)

/-- Node path.posix.join on two arguments: empty parts are dropped, the rest
are joined with a slash and normalised; with no nonempty parts the result is a
single dot. -/
def posixJoin : Path → Path → Path
  | [], [] => ['.']
  | [], b => posixNormalize b
  | a, [] => posixNormalize a
  | a, b => posixNormalize (a ++ '/' :: b)

/-- Node path.basename: the last path segment, ignoring trailing slashes. -/
def basename (p : Path) : Path :=
  ((p.reverse.dropWhile (fun c => c == '/')).takeWhile (fun c => !(c == '/'))).reverse

/-- User action offered by the conflict dialog. -/
inductive OverwriteAction where
  | overwrite | skip | cancel
deriving DecidableEq

/-- Result of a single item copy. -/
inductive CopyResult where
  | success | skipped | cancelled
deriving DecidableEq

/-- User-visible toast messages, one constructor per format string of the
source, carrying the interpolated data. -/
inductive Msg where
  | noSelection
  | createDirFailed (reason : Path)
  | copyFailed (fileName reason : Path)
  | cancelledSummary (copied skipped : Nat)
  | copiedSummary (copied : Nat) (destPath : Path) (skippedSuffix : Option Nat)
  | allSkipped (skipped : Nat)
deriving DecidableEq

/-- Observable host interactions: metadata reads, conflict dialogs, copy and
directory-creation attempts, and displayed messages. -/
inductive Event where
  | stat (p : Path)
  | prompt (fileName destPath : Path)
  | copy (src tgt : Path)
  | mkdir (p : Path)
  | message (m : Msg)
deriving DecidableEq

/-- The observable state threaded through a run: the modelled file system and
the chronological trace of host interactions. -/
structure World where
  fs : FS
  trace : List Event
deriving DecidableEq

def addEvent (w : World) (e : Event) : World := { w with trace := w.trace ++ [e] }

/-- The host environment: the home directory, the configured
copyTo.destinationPath setting (empty list for the empty-string default), the
folder-picker response, the conflict-dialog response, and the error oracles
telling which createDirectory and copy calls throw (with which reason). -/
structure Host where
  homedir : Path
  destinationPath : Path
  openDialog : Option (List Path)
  prompt : Path → Path → OverwriteAction
  mkdirErr : Path → Option Path
  copyErr : Path → Path → Option Path

/-- Resolves a leading tilde to the home directory in a path string. -/
def resolvePath (homedir inputPath : Path) : Path :=
  if jsStartsWith inputPath ['~'] then posixJoin homedir (inputPath.drop 1)
  else inputPath

/-- Formats a destination path for display, replacing a home-directory
occurrence at the front with a tilde. -/
def formatDestinationForDisplay (homedir destPath : Path) : Path :=
  if jsStartsWith destPath homedir then '~' :: destPath.drop homedir.length
  else destPath

/-- Gets the destination path from the setting, or from the folder picker when
the setting is empty; none when the picker is dismissed. -/
def getDestinationUri (h : Host) : Option Path :=
  if h.destinationPath ≠ [] then some (resolvePath h.homedir h.destinationPath)
  else
    match h.openDialog with
    | some (x :: _) => some x
    | _ => none

/-- Ensures the destination directory exists, creating it if the metadata read
fails; reports an error message and failure when creation throws. -/
def ensureDestinationDirectory (h : Host) (w : World) (destUri : Path) : Bool × World :=
  let w1 := addEvent w (Event.stat destUri)
  if (lookupFS w1.fs destUri).isSome then (true, w1)
  else
    let w2 := addEvent w1 (Event.mkdir destUri)
    match h.mkdirErr destUri with
    | none => (true, { w2 with fs := insertFS w2.fs destUri Entry.dir })
    | some reason => (false, addEvent w2 (Event.message (Msg.createDirFailed reason)))

/-- Checks whether a file or folder already exists at the target location. -/
def targetExists (w : World) (targetUri : Path) : Bool × World :=
  ((lookupFS w.fs targetUri).isSome, addEvent w (Event.stat targetUri))

/-- Prompts the user for confirmation when the target already exists. -/
def promptOverwrite (h : Host) (w : World) (fileName destPath : Path) :
    OverwriteAction × World :=
  (h.prompt fileName destPath, addEvent w (Event.prompt fileName destPath))

/-- The try-copy-catch block of copySingleItem: attempt the copy primitive
with the overwrite flag; on a throw, show the per-file error and report a
skip. -/
def performCopy (h : Host) (w : World) (srcUri targetUri fileName : Path) :
    CopyResult × World :=
  let w1 := addEvent w (Event.copy srcUri targetUri)
  match h.copyErr srcUri targetUri with
  | none => (CopyResult.success, { w1 with fs := fsCopy w1.fs srcUri targetUri })
  | some reason =>
    (CopyResult.skipped, addEvent w1 (Event.message (Msg.copyFailed fileName reason)))

/-- Copies a single file or folder to the destination, prompting on a
conflict. -/
def copySingleItem (h : Host) (w : World) (sourceUri destUri : Path) :
    CopyResult × World :=
  let fileName := basename sourceUri
  let targetUri := posixJoin destUri fileName
  let ex := targetExists w targetUri
  if ex.1 then
    let pr := promptOverwrite h ex.2 fileName destUri
    match pr.1 with
    | OverwriteAction.cancel => (CopyResult.cancelled, pr.2)
    | OverwriteAction.skip => (CopyResult.skipped, pr.2)
    | OverwriteAction.overwrite => performCopy h pr.2 sourceUri targetUri fileName
  else performCopy h ex.2 sourceUri targetUri fileName

/-- The for-loop of copyToDestination together with the completion-message
block that follows it, as a recursive function over the remaining source list
and the two counters. -/
def copyLoop (h : Host) (destUri displayPath : Path) :
    World → List Path → Nat → Nat → World
  | w, [], copiedCount, skippedCount =>
    if 0 < copiedCount then
      addEvent w (Event.message (Msg.copiedSummary copiedCount displayPath
        (if 0 < skippedCount then some skippedCount else none)))
    else if 0 < skippedCount then
      addEvent w (Event.message (Msg.allSkipped skippedCount))
    else w
  | w, uri :: rest, copiedCount, skippedCount =>
    match copySingleItem h w uri destUri with
    | (CopyResult.success, w') =>
      copyLoop h destUri displayPath w' rest (copiedCount + 1) skippedCount
    | (CopyResult.skipped, w') =>
      copyLoop h destUri displayPath w' rest copiedCount (skippedCount + 1)
    | (CopyResult.cancelled, w') =>
      addEvent w' (Event.message (Msg.cancelledSummary copiedCount skippedCount))

/-- Copies multiple files or folders to the configured destination. -/
def copyToDestination (h : Host) (w : World) (uris : List Path) : World :=
  match getDestinationUri h with
  | none => w
  | some destUri =>
    let ens := ensureDestinationDirectory h w destUri
    if ens.1 then
      copyLoop h destUri (formatDestinationForDisplay h.homedir destUri) ens.2 uris 0 0
    else ens.2

/-- The target-list computation of the registered command callback: a defined
multi-selection argument wins, otherwise the single uri, otherwise nothing. -/
def selectTargets (uri : Option Path) (uris : Option (List Path)) : List Path :=
  match uris with
  | some l => l
  | none =>
    match uri with
    | some u => [u]
    | none => []

/-- The command callback registered in activate: warn when no targets were
selected, otherwise run the batch copy. -/
def commandHandler (h : Host) (w : World) (uri : Option Path)
    (uris : Option (List Path)) : World :=
  let targets := selectTargets uri uris
  if targets.length = 0 then addEvent w (Event.message Msg.noSelection)
  else copyToDestination h w targets

/-- The target path an item is copied to. -/
def targetOf (destUri sourceUri : Path) : Path := posixJoin destUri (basename sourceUri)

/-- Specification-side description of a prefix of the loop: the counters and
world after processing the given items, or none when some item cancelled. -/
def runItems (h : Host) (destUri : Path) :
    World → List Path → Nat → Nat → Option (Nat × Nat × World)
  | w, [], c, s => some (c, s, w)
  | w, u :: rest, c, s =>
    match copySingleItem h w u destUri with
    | (CopyResult.success, w') => runItems h destUri w' rest (c + 1) s
    | (CopyResult.skipped, w') => runItems h destUri w' rest c (s + 1)
    | (CopyResult.cancelled, _) => none

/-- A plain path segment: nonempty, not a dot or dot-dot, and slash-free. -/
def plainSeg (s : Path) : Prop :=
  s ≠ [] ∧ s ≠ ['.'] ∧ s ≠ ['.', '.'] ∧ '/' ∉ s

instance decPlainSeg (s : Path) : Decidable (plainSeg s) := by
  unfold plainSeg; infer_instance

theorem splitSlash_ne_nil (p : Path) : splitSlash p ≠ [] := by
  induction p with
  | nil => simp [splitSlash]
  | cons c cs ih =>
    by_cases hc : c = '/'
    · simp [splitSlash, hc]
    · simp only [splitSlash, if_neg hc]
      cases hs : splitSlash cs with
      | nil => exact absurd hs ih
      | cons s ss => simp [consHead]

theorem consHead_append (c : Char) (x y : List Path) (hx : x ≠ []) :
    consHead c (x ++ y) = consHead c x ++ y := by
  cases x with
  | nil => exact absurd rfl hx
  | cons s ss => simp [consHead]

theorem splitSlash_append (a b : Path) :
    splitSlash (a ++ '/' :: b) = splitSlash a ++ splitSlash b := by
  induction a with
  | nil => simp [splitSlash]
  | cons c cs ih =>
    by_cases hc : c = '/'
    · simp [splitSlash, hc, ih]
    · show splitSlash (c :: (cs ++ '/' :: b)) = splitSlash (c :: cs) ++ splitSlash b
      simp only [splitSlash, if_neg hc]
      rw [ih]
      exact consHead_append c _ _ (splitSlash_ne_nil cs)

theorem splitSlash_noSlash (s : Path) (h : '/' ∉ s) : splitSlash s = [s] := by
  induction s with
  | nil => simp [splitSlash]
  | cons c cs ih =>
    have hc : ¬ (c = '/') := fun hh => h (hh ▸ List.mem_cons_self c cs)
    have hcs : '/' ∉ cs := fun hh => h (List.mem_cons_of_mem c hh)
    simp [splitSlash, hc, ih hcs, consHead]

theorem intercalateSlash_append (a b : List Path) (ha : a ≠ []) (hb : b ≠ []) :
    intercalateSlash (a ++ b) = intercalateSlash a ++ '/' :: intercalateSlash b := by
  induction a with
  | nil => exact absurd rfl ha
  | cons s ss ih =>
    cases ss with
    | nil =>
      cases b with
      | nil => exact absurd rfl hb
      | cons t ts => simp [intercalateSlash]
    | cons s2 ss2 =>
      have h2 := ih (by simp)
      show intercalateSlash (s :: s2 :: (ss2 ++ b))
          = intercalateSlash (s :: s2 :: ss2) ++ '/' :: intercalateSlash b
      simp only [intercalateSlash]
      rw [show intercalateSlash (s2 :: (ss2 ++ b))
            = intercalateSlash (s2 :: ss2 ++ b) from rfl, h2]
      simp

theorem splitSlash_intercalateSlash (segs : List Path) (hne : segs ≠ [])
    (h : ∀ s ∈ segs, '/' ∉ s) :
    splitSlash (intercalateSlash segs) = segs := by
  induction segs with
  | nil => exact absurd rfl hne
  | cons s ss ih =>
    cases ss with
    | nil => exact splitSlash_noSlash s (h s (by simp))
    | cons s2 ss2 =>
      have h1 : '/' ∉ s := h s (by simp)
      have h2 : ∀ t ∈ s2 :: ss2, '/' ∉ t := fun t ht => h t (by simp [ht])
      calc splitSlash (intercalateSlash (s :: s2 :: ss2))
          = splitSlash (s ++ '/' :: intercalateSlash (s2 :: ss2)) := by
            simp [intercalateSlash]
        _ = splitSlash s ++ splitSlash (intercalateSlash (s2 :: ss2)) :=
            splitSlash_append _ _
        _ = [s] ++ (s2 :: ss2) := by
            rw [splitSlash_noSlash s h1, ih (by simp) h2]
        _ = s :: s2 :: ss2 := by simp

theorem step_empty (allow : Bool) (acc : List Path) : step allow acc [] = acc := by
  simp [step]

theorem step_plain (allow : Bool) (acc : List Path) (s : Path) (h : plainSeg s) :
    step allow acc s = s :: acc := by
  obtain ⟨h1, h2, h3, _⟩ := h
  simp [step, h1, h2, h3]

theorem foldl_step_plain (allow : Bool) (segs : List Path)
    (h : ∀ s ∈ segs, s = [] ∨ plainSeg s) :
    ∀ acc, segs.foldl (step allow) acc
      = (segs.filter (fun s => !s.isEmpty)).reverse ++ acc := by
  induction segs with
  | nil => intro acc; simp
  | cons s ss ih =>
    intro acc
    have hs := h s (by simp)
    have hss : ∀ t ∈ ss, t = [] ∨ plainSeg t := fun t ht => h t (by simp [ht])
    rcases hs with hs | hs
    · subst hs
      simp [step_empty, ih hss]
    · have hne : ¬ s.isEmpty = true := by
        cases s with
        | nil => exact absurd rfl hs.1
        | cons c cs => simp
      simp only [List.foldl_cons, step_plain allow acc s hs, ih hss,
        List.filter_cons]
      simp [hne]

theorem filter_nonempty_of_plain (l : List Path) (h : ∀ s ∈ l, plainSeg s) :
    l.filter (fun s => !s.isEmpty) = l := by
  induction l with
  | nil => rfl
  | cons s ss ih =>
    have h1 := (h s (by simp)).1
    have hne : ¬ s.isEmpty = true := by
      cases s with
      | nil => exact absurd rfl h1
      | cons c cs => simp
    simp only [List.filter_cons]
    simp [hne, ih (fun t ht => h t (by simp [ht]))]

theorem intercalateSlash_ne_nil (s : Path) (ss : List Path) (h : s ≠ []) :
    intercalateSlash (s :: ss) ≠ [] := by
  cases ss with
  | nil => simpa [intercalateSlash]
  | cons s2 ss2 =>
    simp only [intercalateSlash]
    intro hh
    rcases List.append_eq_nil.mp hh with ⟨_, h2⟩
    exact absurd h2 (by simp)

theorem exists_concat_noSlash (rs : List Path) (hne : rs ≠ [])
    (h : ∀ s ∈ rs, plainSeg s) :
    ∃ x s, intercalateSlash rs = x ++ s ∧ s ≠ [] ∧ '/' ∉ s := by
  induction rs with
  | nil => exact absurd rfl hne
  | cons a ss ih =>
    cases ss with
    | nil =>
      refine ⟨[], a, by simp [intercalateSlash], (h a (by simp)).1,
        (h a (by simp)).2.2.2⟩
    | cons a2 ss2 =>
      obtain ⟨x, s, hx, hs, hns⟩ :=
        ih (by simp) (fun t ht => h t (by simp [ht]))
      refine ⟨a ++ '/' :: x, s, ?_, hs, hns⟩
      simp [intercalateSlash, hx]

theorem endsWithSlash_append_noSlash (x s : Path) (hs : s ≠ []) (hn : '/' ∉ s) :
    endsWithSlash (x ++ s) = false := by
  unfold endsWithSlash
  rw [List.reverse_append]
  cases hrev : s.reverse with
  | nil => exact absurd (List.reverse_eq_nil_iff.mp hrev) hs
  | cons c cs =>
    have hc : c ∈ s := by
      have : c ∈ s.reverse := by simp [hrev]
      simpa using this
    have hcn : ¬ (c = '/') := fun hh => hn (hh ▸ hc)
    simp [hcn]

theorem jsStartsWith_append (a t : Path) : jsStartsWith (a ++ t) a = true := by
  induction a with
  | nil => cases t <;> simp [jsStartsWith]
  | cons c cs ih => simpa [jsStartsWith]

theorem posixNormalize_abs (tail : Path)
    (hbody : normalizeSegs false ('/' :: tail) ≠ [])
    (htrail : endsWithSlash ('/' :: tail) = false) :
    posixNormalize ('/' :: tail) = '/' :: normalizeSegs false ('/' :: tail) := by
  simp [posixNormalize, hbody, htrail]

/-- Joining an absolute path made of plain segments with a slash-led suffix of
plain segments is plain concatenation: normalisation changes nothing. -/
theorem posixJoin_plain (hs rs : List Path) (hhs : hs ≠ []) (hrs : rs ≠ [])
    (hp : ∀ s ∈ hs, plainSeg s) (hq : ∀ s ∈ rs, plainSeg s) :
    posixJoin ('/' :: intercalateSlash hs) ('/' :: intercalateSlash rs)
      = ('/' :: intercalateSlash hs) ++ '/' :: intercalateSlash rs := by
  have hnh : ∀ s ∈ hs, '/' ∉ s := fun s h => (hp s h).2.2.2
  have hnr : ∀ s ∈ rs, '/' ∉ s := fun s h => (hq s h).2.2.2
  have hsplitH : splitSlash (intercalateSlash hs) = hs :=
    splitSlash_intercalateSlash hs hhs hnh
  have hsplitR : splitSlash (intercalateSlash rs) = rs :=
    splitSlash_intercalateSlash rs hrs hnr
  have hsegs : splitSlash
      (intercalateSlash hs ++ '/' :: '/' :: intercalateSlash rs) = hs ++ [] :: rs := by
    rw [splitSlash_append (intercalateSlash hs) ('/' :: intercalateSlash rs), hsplitH]
    simp [splitSlash, hsplitR]
  have hplainOrEmpty : ∀ s ∈ ([] : Path) :: (hs ++ [] :: rs), s = [] ∨ plainSeg s := by
    intro s hsmem
    rcases List.mem_cons.mp hsmem with h | h
    · exact Or.inl h
    · rcases List.mem_append.mp h with h | h
      · exact Or.inr (hp s h)
      · rcases List.mem_cons.mp h with h | h
        · exact Or.inl h
        · exact Or.inr (hq s h)
  have hfilter : (([] : Path) :: (hs ++ [] :: rs)).filter (fun s => !s.isEmpty)
      = hs ++ rs := by
    simp only [List.filter_cons, List.filter_append]
    rw [filter_nonempty_of_plain hs hp, filter_nonempty_of_plain rs hq]
    simp
  have hbody : normalizeSegs false
      ('/' :: (intercalateSlash hs ++ '/' :: '/' :: intercalateSlash rs))
      = intercalateSlash (hs ++ rs) := by
    unfold normalizeSegs
    have hsplit2 : splitSlash
        ('/' :: (intercalateSlash hs ++ '/' :: '/' :: intercalateSlash rs))
        = [] :: (hs ++ [] :: rs) := by
      simp [splitSlash, hsegs]
    rw [hsplit2, foldl_step_plain false _ hplainOrEmpty [], hfilter]
    simp
  have hneHs : ∃ h1 hs', hs = h1 :: hs' := by
    cases hs with
    | nil => exact absurd rfl hhs
    | cons a b => exact ⟨a, b, rfl⟩
  obtain ⟨h1, hs', hhs1⟩ := hneHs
  have hne_body : intercalateSlash (hs ++ rs) ≠ [] := by
    rw [hhs1]
    exact intercalateSlash_ne_nil h1 (hs' ++ rs) (hp h1 (by simp [hhs1])).1
  have htrail : endsWithSlash
      ('/' :: (intercalateSlash hs ++ '/' :: '/' :: intercalateSlash rs)) = false := by
    obtain ⟨x, s, hx, hsne, hns⟩ := exists_concat_noSlash rs hrs hq
    rw [hx]
    have heq : '/' :: (intercalateSlash hs ++ '/' :: '/' :: (x ++ s))
        = ('/' :: (intercalateSlash hs ++ '/' :: '/' :: x)) ++ s := by simp
    rw [heq]
    exact endsWithSlash_append_noSlash _ s hsne hns
  calc posixJoin ('/' :: intercalateSlash hs) ('/' :: intercalateSlash rs)
      = posixNormalize
          ('/' :: (intercalateSlash hs ++ '/' :: '/' :: intercalateSlash rs)) := rfl
    _ = '/' :: normalizeSegs false
          ('/' :: (intercalateSlash hs ++ '/' :: '/' :: intercalateSlash rs)) :=
        posixNormalize_abs _ (by rw [hbody]; exact hne_body) htrail
    _ = '/' :: intercalateSlash (hs ++ rs) := by rw [hbody]
    _ = ('/' :: intercalateSlash hs) ++ '/' :: intercalateSlash rs := by
        rw [intercalateSlash_append hs rs hhs hrs]
        rfl

/-- C1: the claimed exact inverse law fails on the code as stated.  With home
directory the two-character path slash-h, the input tilde-a begins with the
home-directory marker, yet expanding it and formatting the result back yields
tilde-slash-a, not the original string; and the absolute path slash-h-a begins
with the home directory, yet expanding its display form yields slash-h
slash-a, not the original path. -/
theorem c1_counterexample :
    (jsStartsWith ['~', 'a'] ['~'] = true ∧
      formatDestinationForDisplay ['/', 'h']
        (resolvePath ['/', 'h'] ['~', 'a']) ≠ ['~', 'a'])
    ∧ (jsStartsWith ['/', 'h', 'a'] ['/', 'h'] = true ∧
      resolvePath ['/', 'h']
        (formatDestinationForDisplay ['/', 'h'] ['/', 'h', 'a']) ≠ ['/', 'h', 'a']) := by
  decide

/-- C1 (amended): restricted to well-formed paths, expansion and the display
transform are exact inverses.  For a home directory written as a slash
followed by plain slash-free segments and a suffix written as plain segments,
expanding the tilde-slash form yields the home directory followed by a slash
and the suffix, formatting that back yields the tilde-slash form, and both
round trips return to their starting point. -/
theorem c1_roundtrip (hs rs : List Path) (home r : Path)
    (hhs : hs ≠ []) (hrs : rs ≠ [])
    (hp : ∀ s ∈ hs, plainSeg s) (hq : ∀ s ∈ rs, plainSeg s)
    (hhome : home = '/' :: intercalateSlash hs) (hr : r = intercalateSlash rs) :
    resolvePath home ('~' :: '/' :: r) = home ++ '/' :: r
    ∧ formatDestinationForDisplay home (home ++ '/' :: r) = '~' :: '/' :: r
    ∧ formatDestinationForDisplay home (resolvePath home ('~' :: '/' :: r))
        = '~' :: '/' :: r
    ∧ resolvePath home (formatDestinationForDisplay home (home ++ '/' :: r))
        = home ++ '/' :: r := by
  subst hhome hr
  have h1 : resolvePath ('/' :: intercalateSlash hs)
      ('~' :: '/' :: intercalateSlash rs)
      = ('/' :: intercalateSlash hs) ++ '/' :: intercalateSlash rs := by
    unfold resolvePath
    have hsw : jsStartsWith ('~' :: '/' :: intercalateSlash rs) ['~'] = true := by
      simp [jsStartsWith]
    rw [if_pos hsw]
    exact posixJoin_plain hs rs hhs hrs hp hq
  have h2 : formatDestinationForDisplay ('/' :: intercalateSlash hs)
      (('/' :: intercalateSlash hs) ++ '/' :: intercalateSlash rs)
      = '~' :: '/' :: intercalateSlash rs := by
    unfold formatDestinationForDisplay
    rw [if_pos (jsStartsWith_append _ _), List.drop_left]
  exact ⟨h1, h2, by rw [h1]; exact h2, by rw [h2]; exact h1⟩

/-- Witness for C1 (amended) at the concrete home directory slash-h and
suffix u. -/
theorem c1_roundtrip_witness :
    resolvePath ['/', 'h'] ['~', '/', 'u'] = ['/', 'h'] ++ '/' :: ['u']
    ∧ formatDestinationForDisplay ['/', 'h'] (['/', 'h'] ++ '/' :: ['u'])
        = ['~', '/', 'u']
    ∧ formatDestinationForDisplay ['/', 'h']
        (resolvePath ['/', 'h'] ['~', '/', 'u']) = ['~', '/', 'u']
    ∧ resolvePath ['/', 'h']
        (formatDestinationForDisplay ['/', 'h'] (['/', 'h'] ++ '/' :: ['u']))
        = ['/', 'h'] ++ '/' :: ['u'] :=
  c1_roundtrip [['h']] [['u']] ['/', 'h'] ['u'] (by decide) (by decide)
    (by decide) (by decide) (by decide) (by decide)

theorem lookupFS_insertFS (fs : FS) (p q : Path) (e : Entry) :
    lookupFS (insertFS fs p e) q = if p = q then some e else lookupFS fs q := rfl

theorem addEvent_fs (w : World) (e : Event) : (addEvent w e).fs = w.fs := rfl

/-- A fresh target with a succeeding copy primitive: one stat, one copy, a
success result, and the target now present. -/
theorem copySingleItem_new_ok (h : Host) (w : World) (u d : Path)
    (habs : lookupFS w.fs (targetOf d u) = none)
    (hok : h.copyErr u (targetOf d u) = none) :
    copySingleItem h w u d = (CopyResult.success,
      { fs := fsCopy w.fs u (targetOf d u),
        trace := w.trace ++ [Event.stat (targetOf d u),
          Event.copy u (targetOf d u)] }) := by
  simp only [targetOf] at habs hok
  unfold copySingleItem targetExists performCopy
  simp [addEvent, targetOf, habs, hok]

/-- A fresh target with a throwing copy primitive: the per-file error message
is shown, the result is a skip, and the file system is untouched. -/
theorem copySingleItem_new_fail (h : Host) (w : World) (u d reason : Path)
    (habs : lookupFS w.fs (targetOf d u) = none)
    (hfail : h.copyErr u (targetOf d u) = some reason) :
    copySingleItem h w u d = (CopyResult.skipped,
      { fs := w.fs,
        trace := w.trace ++ [Event.stat (targetOf d u),
          Event.copy u (targetOf d u),
          Event.message (Msg.copyFailed (basename u) reason)] }) := by
  simp only [targetOf] at habs hfail
  unfold copySingleItem targetExists performCopy
  simp [addEvent, targetOf, habs, hfail]

/-- An occupied target with the prompt answered cancel: stat and prompt only,
a cancelled result, and the file system untouched. -/
theorem copySingleItem_conflict_cancel (h : Host) (w : World) (u d : Path)
    (e : Entry) (hex : lookupFS w.fs (targetOf d u) = some e)
    (hc : h.prompt (basename u) d = OverwriteAction.cancel) :
    copySingleItem h w u d = (CopyResult.cancelled,
      { fs := w.fs,
        trace := w.trace ++ [Event.stat (targetOf d u),
          Event.prompt (basename u) d] }) := by
  simp only [targetOf] at hex
  unfold copySingleItem targetExists promptOverwrite
  simp [addEvent, targetOf, hex, hc]

/-- An occupied target with the prompt answered skip: stat and prompt only, a
skipped result, and the file system untouched. -/
theorem copySingleItem_conflict_skip (h : Host) (w : World) (u d : Path)
    (e : Entry) (hex : lookupFS w.fs (targetOf d u) = some e)
    (hc : h.prompt (basename u) d = OverwriteAction.skip) :
    copySingleItem h w u d = (CopyResult.skipped,
      { fs := w.fs,
        trace := w.trace ++ [Event.stat (targetOf d u),
          Event.prompt (basename u) d] }) := by
  simp only [targetOf] at hex
  unfold copySingleItem targetExists promptOverwrite
  simp [addEvent, targetOf, hex, hc]

/-- An occupied target, the prompt answered overwrite, and a throwing copy
primitive: the per-file error message is shown, the result is a skip, and the
file system is untouched. -/
theorem copySingleItem_overwrite_fail (h : Host) (w : World) (u d reason : Path)
    (e : Entry) (hex : lookupFS w.fs (targetOf d u) = some e)
    (hc : h.prompt (basename u) d = OverwriteAction.overwrite)
    (hfail : h.copyErr u (targetOf d u) = some reason) :
    copySingleItem h w u d = (CopyResult.skipped,
      { fs := w.fs,
        trace := w.trace ++ [Event.stat (targetOf d u),
          Event.prompt (basename u) d,
          Event.copy u (targetOf d u),
          Event.message (Msg.copyFailed (basename u) reason)] }) := by
  simp only [targetOf] at hex hfail
  unfold copySingleItem targetExists promptOverwrite performCopy
  simp [addEvent, targetOf, hex, hc, hfail]

/-- Gluing a cancellation-free prefix run onto the loop: after the prefix the
loop continues from the accumulated counters and world. -/
theorem copyLoop_of_runItems (h : Host) (d disp : Path) (pre : List Path) :
    ∀ (w : World) (c s c' s' : Nat) (w' : World),
      runItems h d w pre c s = some (c', s', w') →
      ∀ ys, copyLoop h d disp w (pre ++ ys) c s = copyLoop h d disp w' ys c' s' := by
  induction pre with
  | nil =>
    intro w c s c' s' w' hrun ys
    have : (c, s, w) = (c', s', w') := by simpa [runItems] using hrun
    obtain ⟨rfl, rfl, rfl⟩ := Prod.mk.injEq .. ▸ this
    rfl
  | cons u pre ih =>
    intro w c s c' s' w' hrun ys
    rcases hcs : copySingleItem h w u d with ⟨r, w2⟩
    cases r with
    | success =>
      simp only [runItems, hcs] at hrun
      show copyLoop h d disp w (u :: (pre ++ ys)) c s = copyLoop h d disp w' ys c' s'
      simp only [copyLoop, hcs]
      exact ih w2 (c + 1) s c' s' w' hrun ys
    | skipped =>
      simp only [runItems, hcs] at hrun
      show copyLoop h d disp w (u :: (pre ++ ys)) c s = copyLoop h d disp w' ys c' s'
      simp only [copyLoop, hcs]
      exact ih w2 c (s + 1) c' s' w' hrun ys
    | cancelled =>
      simp only [runItems, hcs] at hrun
      exact absurd hrun (by simp)

/-- C2: when the conflict prompt at some item answers cancel, the batch stops
there.  Whatever list of items follows, the run is the prefix run followed
only by that item's existence check and prompt and the cancellation summary
carrying the counts accumulated over the prefix; no stat, prompt or copy for
any later item occurs, and the cancelling item feeds neither counter. -/
theorem c2_cancel_halts (h : Host) (w w0 w1 : World) (d : Path)
    (pre post : List Path) (u : Path) (c s : Nat)
    (hdest : getDestinationUri h = some d)
    (hens : ensureDestinationDirectory h w d = (true, w0))
    (hpre : runItems h d w0 pre 0 0 = some (c, s, w1))
    (hconf : (lookupFS w1.fs (targetOf d u)).isSome = true)
    (hcancel : h.prompt (basename u) d = OverwriteAction.cancel) :
    copyToDestination h w (pre ++ u :: post)
      = { fs := w1.fs,
          trace := w1.trace ++ [Event.stat (targetOf d u),
            Event.prompt (basename u) d,
            Event.message (Msg.cancelledSummary c s)] } := by
  obtain ⟨e, he⟩ := Option.isSome_iff_exists.mp hconf
  unfold copyToDestination
  rw [hdest]
  simp only [hens]
  rw [copyLoop_of_runItems h d (formatDestinationForDisplay h.homedir d) pre
    w0 0 0 c s w1 hpre (u :: post)]
  simp only [copyLoop, copySingleItem_conflict_cancel h w1 u d e he hcancel]
  simp [addEvent]

def pD : Path := ['/', 'd']

def pA : Path := ['/', 'a']

def pB : Path := ['/', 'b']

def pC : Path := ['/', 'c']

def tA : Path := ['/', 'd', '/', 'a']

def tB : Path := ['/', 'd', '/', 'b']

/-- Initial file system for the cancellation scenario: the destination
directory exists, the target of the second source is occupied, and both
sources exist. -/
def c2FS : FS :=
  [(pD, Entry.dir), (tB, Entry.file 0), (pA, Entry.file 1), (pB, Entry.file 2)]

def c2Host : Host :=
  { homedir := ['/', 'h'],
    destinationPath := pD,
    openDialog := none,
    prompt := fun _ _ => OverwriteAction.cancel,
    mkdirErr := fun _ => none,
    copyErr := fun _ _ => none }

def c2W1 : World :=
  { fs := (tA, Entry.file 1) :: c2FS,
    trace := [Event.stat pD, Event.stat tA, Event.copy pA tA] }

/-- Witness for C2: a two-item prefix-plus-conflict run with a third item
after the cancellation, at concrete paths. -/
theorem c2_cancel_halts_witness :
    copyToDestination c2Host { fs := c2FS, trace := [] } ([pA] ++ pB :: [pC])
      = { fs := c2W1.fs,
          trace := c2W1.trace ++ [Event.stat (targetOf pD pB),
            Event.prompt (basename pB) pD,
            Event.message (Msg.cancelledSummary 1 0)] } :=
  c2_cancel_halts c2Host { fs := c2FS, trace := [] }
    { fs := c2FS, trace := [Event.stat pD] } c2W1 pD [pA] [pC] pB 1 0
    (by decide) (by decide) (by decide) (by decide) (by decide)

/-- Expected effect of one conflict-free succeeding item: a stat, a copy, and
the duplicated entry at the target. -/
def successStep (d : Path) (w : World) (u : Path) : World :=
  { fs := fsCopy w.fs u (targetOf d u),
    trace := w.trace ++ [Event.stat (targetOf d u), Event.copy u (targetOf d u)] }

/-- Expected world after a conflict-free succeeding pass over the items. -/
def successWorld (d : Path) (w : World) (uris : List Path) : World :=
  uris.foldl (successStep d) w

/-- A conflict-free pass with succeeding copies: every item succeeds, the
copied counter gains the list length, and the world is the fold of the
per-item effects. -/
theorem runItems_success (h : Host) (d : Path) (uris : List Path) :
    ∀ (w : World) (c s : Nat),
      (∀ u ∈ uris, lookupFS w.fs (targetOf d u) = none) →
      uris.Pairwise (fun a b => targetOf d a ≠ targetOf d b) →
      (∀ u ∈ uris, h.copyErr u (targetOf d u) = none) →
      runItems h d w uris c s = some (c + uris.length, s, successWorld d w uris) := by
  induction uris with
  | nil => intro w c s _ _ _; simp [runItems, successWorld]
  | cons u rest ih =>
    intro w c s habs hpw hok
    have h1 : copySingleItem h w u d = (CopyResult.success, successStep d w u) := by
      rw [copySingleItem_new_ok h w u d (habs u (by simp)) (hok u (by simp))]
      rfl
    have hmaint : ∀ v ∈ rest, lookupFS (successStep d w u).fs (targetOf d v) = none := by
      intro v hv
      have hne : targetOf d u ≠ targetOf d v := (List.pairwise_cons.mp hpw).1 v hv
      show lookupFS (fsCopy w.fs u (targetOf d u)) (targetOf d v) = none
      unfold fsCopy
      rw [lookupFS_insertFS, if_neg hne]
      exact habs v (by simp [hv])
    simp only [runItems, h1, List.length_cons]
    rw [ih (successStep d w u) (c + 1) s hmaint (List.pairwise_cons.mp hpw).2
      (fun v hv => hok v (by simp [hv]))]
    have hc : c + 1 + rest.length = c + (rest.length + 1) := by omega
    rw [hc]
    rfl

/-- C3: over a non-empty source list against a valid destination, with no
target present and pairwise distinct targets and every copy primitive call
succeeding, every item's outcome is success, the summary counts the whole
list as copied with nothing skipped, and the completion message reports the
list length and the display destination. -/
theorem c3_all_success (h : Host) (w w0 : World) (d : Path) (uris : List Path)
    (hne : uris ≠ [])
    (hdest : getDestinationUri h = some d)
    (hens : ensureDestinationDirectory h w d = (true, w0))
    (habs : ∀ u ∈ uris, lookupFS w0.fs (targetOf d u) = none)
    (hpw : uris.Pairwise (fun a b => targetOf d a ≠ targetOf d b))
    (hok : ∀ u ∈ uris, h.copyErr u (targetOf d u) = none) :
    runItems h d w0 uris 0 0 = some (uris.length, 0, successWorld d w0 uris)
    ∧ copyToDestination h w uris
      = addEvent (successWorld d w0 uris)
          (Event.message (Msg.copiedSummary uris.length
            (formatDestinationForDisplay h.homedir d) none)) := by
  have hrun := runItems_success h d uris w0 0 0 habs hpw hok
  rw [Nat.zero_add] at hrun
  refine ⟨hrun, ?_⟩
  unfold copyToDestination
  rw [hdest]
  simp only [hens]
  have hglue := copyLoop_of_runItems h d (formatDestinationForDisplay h.homedir d)
    uris w0 0 0 uris.length 0 (successWorld d w0 uris) hrun []
  rw [List.append_nil] at hglue
  rw [hglue]
  have hlen : 0 < uris.length := List.length_pos.mpr hne
  simp [copyLoop, hlen]

def c3FS : FS := [(pD, Entry.dir), (pA, Entry.file 1), (pB, Entry.file 2)]

def c3Host : Host :=
  { homedir := ['/', 'h'],
    destinationPath := pD,
    openDialog := none,
    prompt := fun _ _ => OverwriteAction.overwrite,
    mkdirErr := fun _ => none,
    copyErr := fun _ _ => none }

/-- Witness for C3: two fresh sources copied into an existing destination. -/
theorem c3_all_success_witness :
    runItems c3Host pD { fs := c3FS, trace := [Event.stat pD] } [pA, pB] 0 0
      = some ([pA, pB].length, 0,
          successWorld pD { fs := c3FS, trace := [Event.stat pD] } [pA, pB])
    ∧ copyToDestination c3Host { fs := c3FS, trace := [] } [pA, pB]
      = addEvent (successWorld pD { fs := c3FS, trace := [Event.stat pD] } [pA, pB])
          (Event.message (Msg.copiedSummary [pA, pB].length
            (formatDestinationForDisplay c3Host.homedir pD) none)) :=
  c3_all_success c3Host { fs := c3FS, trace := [] }
    { fs := c3FS, trace := [Event.stat pD] } pD [pA, pB]
    (by decide) (by decide) (by decide) (by decide) (by decide) (by decide)

/-- C4: whenever the copy primitive throws, for any reason, exactly one error
message naming the file and the reason is appended to the trace, the item's
outcome is skipped with the file system untouched, and the loop continues
with the remaining items, incrementing only the skipped counter. -/
theorem c4_copy_failure (h : Host) (w : World) (d disp u reason : Path)
    (rest : List Path) (c s : Nat)
    (hfail : h.copyErr u (targetOf d u) = some reason)
    (hgo : lookupFS w.fs (targetOf d u) = none
      ∨ (∃ e, lookupFS w.fs (targetOf d u) = some e)
          ∧ h.prompt (basename u) d = OverwriteAction.overwrite) :
    (copySingleItem h w u d).1 = CopyResult.skipped
    ∧ (copySingleItem h w u d).2.fs = w.fs
    ∧ (copySingleItem h w u d).2.trace
        = w.trace ++ (if (lookupFS w.fs (targetOf d u)).isSome
            then [Event.stat (targetOf d u), Event.prompt (basename u) d,
              Event.copy u (targetOf d u),
              Event.message (Msg.copyFailed (basename u) reason)]
            else [Event.stat (targetOf d u), Event.copy u (targetOf d u),
              Event.message (Msg.copyFailed (basename u) reason)])
    ∧ copyLoop h d disp w (u :: rest) c s
        = copyLoop h d disp (copySingleItem h w u d).2 rest c (s + 1) := by
  rcases hgo with habs | ⟨⟨e, hex⟩, hover⟩
  · have h1 := copySingleItem_new_fail h w u d reason habs hfail
    rw [h1]
    refine ⟨rfl, rfl, by simp [habs], ?_⟩
    simp only [copyLoop, h1]
  · have h1 := copySingleItem_overwrite_fail h w u d reason e hex hover hfail
    rw [h1]
    refine ⟨rfl, rfl, by simp [hex], ?_⟩
    simp only [copyLoop, h1]

def c4Host : Host :=
  { homedir := ['/', 'h'],
    destinationPath := pD,
    openDialog := none,
    prompt := fun _ _ => OverwriteAction.overwrite,
    mkdirErr := fun _ => none,
    copyErr := fun _ _ => some ['E'] }

/-- Witness for C4: a fresh target whose copy throws with reason E. -/
theorem c4_copy_failure_witness :
    (copySingleItem c4Host { fs := c3FS, trace := [] } pA pD).1 = CopyResult.skipped
    ∧ (copySingleItem c4Host { fs := c3FS, trace := [] } pA pD).2.fs = c3FS
    ∧ (copySingleItem c4Host { fs := c3FS, trace := [] } pA pD).2.trace
        = [] ++ (if (lookupFS c3FS (targetOf pD pA)).isSome
            then [Event.stat (targetOf pD pA), Event.prompt (basename pA) pD,
              Event.copy pA (targetOf pD pA),
              Event.message (Msg.copyFailed (basename pA) ['E'])]
            else [Event.stat (targetOf pD pA), Event.copy pA (targetOf pD pA),
              Event.message (Msg.copyFailed (basename pA) ['E'])])
    ∧ copyLoop c4Host pD pD { fs := c3FS, trace := [] } (pA :: [pB]) 0 0
        = copyLoop c4Host pD pD (copySingleItem c4Host { fs := c3FS, trace := [] } pA pD).2
            [pB] 0 (0 + 1) :=
  c4_copy_failure c4Host { fs := c3FS, trace := [] } pD pD pA ['E'] [pB] 0 0
    (by decide) (Or.inl (by decide))

/-- C5: with an empty configured destination and a dismissed folder picker,
the batch returns the world unchanged: no directory creation, no copy, no
message of any kind. -/
theorem c5_dismissed_noop (h : Host) (w : World) (uris : List Path)
    (hcfg : h.destinationPath = []) (hdlg : h.openDialog = none) :
    copyToDestination h w uris = w := by
  unfold copyToDestination getDestinationUri
  rw [hcfg, hdlg]
  simp

def c5Host : Host :=
  { homedir := ['/', 'h'],
    destinationPath := [],
    openDialog := none,
    prompt := fun _ _ => OverwriteAction.overwrite,
    mkdirErr := fun _ => none,
    copyErr := fun _ _ => none }

/-- Witness for C5 at a concrete world and source list. -/
theorem c5_dismissed_noop_witness :
    copyToDestination c5Host { fs := c3FS, trace := [] } [pA, pB]
      = { fs := c3FS, trace := [] } :=
  c5_dismissed_noop c5Host { fs := c3FS, trace := [] } [pA, pB] rfl rfl

/-- C6: after a full pass with no cancellation, the final message is chosen
by the counters: a copied summary naming the count and the display
destination with a skipped suffix exactly when the skipped counter is
positive, the dedicated all-skipped message when nothing was copied but
something skipped, and no message at all when both counters are zero. -/
theorem c6_final_message (h : Host) (w w0 w1 : World) (d : Path)
    (uris : List Path) (c s : Nat)
    (hdest : getDestinationUri h = some d)
    (hens : ensureDestinationDirectory h w d = (true, w0))
    (hrun : runItems h d w0 uris 0 0 = some (c, s, w1)) :
    copyToDestination h w uris
      = (if 0 < c then
          addEvent w1 (Event.message (Msg.copiedSummary c
            (formatDestinationForDisplay h.homedir d)
            (if 0 < s then some s else none)))
        else if 0 < s then addEvent w1 (Event.message (Msg.allSkipped s))
        else w1) := by
  unfold copyToDestination
  rw [hdest]
  simp only [hens]
  have hglue := copyLoop_of_runItems h d (formatDestinationForDisplay h.homedir d)
    uris w0 0 0 c s w1 hrun []
  rw [List.append_nil] at hglue
  rw [hglue]
  rfl

def c6Host : Host :=
  { homedir := ['/', 'h'],
    destinationPath := pD,
    openDialog := none,
    prompt := fun _ _ => OverwriteAction.skip,
    mkdirErr := fun _ => none,
    copyErr := fun _ _ => none }

def c6W1 : World :=
  { fs := c2FS,
    trace := [Event.stat pD, Event.stat tB, Event.prompt (basename pB) pD] }

/-- Witness for C6: a single conflicting item answered skip, ending in the
all-skipped message branch. -/
theorem c6_final_message_witness :
    copyToDestination c6Host { fs := c2FS, trace := [] } [pB]
      = (if 0 < 0 then
          addEvent c6W1 (Event.message (Msg.copiedSummary 0
            (formatDestinationForDisplay c6Host.homedir pD)
            (if 0 < 1 then some 1 else none)))
        else if 0 < 1 then addEvent c6W1 (Event.message (Msg.allSkipped 1))
        else c6W1) :=
  c6_final_message c6Host { fs := c2FS, trace := [] }
    { fs := c2FS, trace := [Event.stat pD] } c6W1
    pD [pB] 0 1 (by decide) (by decide) (by decide)

/-- C7: an occupied target with the prompt answered skip performs no copy,
leaves the existing entry at the target unchanged, and the loop continues
incrementing only the skipped counter. -/
theorem c7_skip_preserves (h : Host) (w : World) (d disp u : Path) (e : Entry)
    (rest : List Path) (c s : Nat)
    (hex : lookupFS w.fs (targetOf d u) = some e)
    (hskip : h.prompt (basename u) d = OverwriteAction.skip) :
    copySingleItem h w u d = (CopyResult.skipped,
      { fs := w.fs, trace := w.trace ++ [Event.stat (targetOf d u),
          Event.prompt (basename u) d] })
    ∧ lookupFS (copySingleItem h w u d).2.fs (targetOf d u) = some e
    ∧ copyLoop h d disp w (u :: rest) c s
        = copyLoop h d disp (copySingleItem h w u d).2 rest c (s + 1) := by
  have h1 := copySingleItem_conflict_skip h w u d e hex hskip
  refine ⟨h1, ?_, ?_⟩
  · rw [h1]
    exact hex
  · simp only [copyLoop, h1]

/-- Witness for C7 at a concrete occupied target. -/
theorem c7_skip_preserves_witness :
    copySingleItem c6Host { fs := c2FS, trace := [] } pB pD = (CopyResult.skipped,
      { fs := c2FS, trace := [] ++ [Event.stat (targetOf pD pB),
          Event.prompt (basename pB) pD] })
    ∧ lookupFS (copySingleItem c6Host { fs := c2FS, trace := [] } pB pD).2.fs
        (targetOf pD pB) = some (Entry.file 0)
    ∧ copyLoop c6Host pD pD { fs := c2FS, trace := [] } (pB :: [pC]) 0 0
        = copyLoop c6Host pD pD
            (copySingleItem c6Host { fs := c2FS, trace := [] } pB pD).2 [pC] 0 (0 + 1) :=
  c7_skip_preserves c6Host { fs := c2FS, trace := [] } pD pD pB (Entry.file 0)
    [pC] 0 0 (by decide) (by decide)

/-- C8: ensureDestinationDirectory is total over its outcomes and idempotent.
A readable destination returns true at once with no creation attempt; an
unreadable one attempts creation and returns true on success; it returns
false exactly when creation throws, in which case one error message naming
the reason is shown; and a second call after any successful call succeeds via
the metadata read alone, changing nothing but the trace's stat record. -/
theorem c8_ensure_total (h : Host) (w w' : World) (d reason : Path) :
    ((lookupFS w.fs d).isSome = true →
      ensureDestinationDirectory h w d = (true, addEvent w (Event.stat d)))
    ∧ ((lookupFS w.fs d).isSome = false → h.mkdirErr d = none →
      ensureDestinationDirectory h w d
        = (true, { fs := insertFS w.fs d Entry.dir,
                   trace := w.trace ++ [Event.stat d, Event.mkdir d] }))
    ∧ ((lookupFS w.fs d).isSome = false → h.mkdirErr d = some reason →
      ensureDestinationDirectory h w d
        = (false, { fs := w.fs,
                    trace := w.trace ++ [Event.stat d, Event.mkdir d,
                      Event.message (Msg.createDirFailed reason)] }))
    ∧ (ensureDestinationDirectory h w d = (true, w') →
      ensureDestinationDirectory h w' d = (true, addEvent w' (Event.stat d))) := by
  refine ⟨?_, ?_, ?_, ?_⟩
  · intro h1
    unfold ensureDestinationDirectory
    simp [addEvent, h1]
  · intro h1 h2
    unfold ensureDestinationDirectory
    simp [addEvent, h1, h2]
  · intro h1 h2
    unfold ensureDestinationDirectory
    simp [addEvent, h1, h2]
  · intro hens
    unfold ensureDestinationDirectory at hens ⊢
    by_cases hl : (lookupFS w.fs d).isSome = true
    · simp only [addEvent_fs, hl, if_true] at hens
      obtain ⟨-, rfl⟩ := Prod.mk.injEq .. ▸ hens
      simp [addEvent, hl]
    · simp only [addEvent_fs, hl] at hens
      cases hm : h.mkdirErr d with
      | none =>
        simp only [hm, Bool.false_eq_true, if_false] at hens
        obtain ⟨-, rfl⟩ := Prod.mk.injEq .. ▸ hens
        simp [addEvent, insertFS, lookupFS]
      | some r =>
        simp only [hm, Bool.false_eq_true, if_false] at hens
        exact absurd (Prod.mk.injEq .. ▸ hens).1 (by simp)

/-- Witness for C8: ensuring an already-present destination directory. -/
theorem c8_ensure_total_witness :
    ensureDestinationDirectory c3Host { fs := c3FS, trace := [] } pD
      = (true, addEvent { fs := c3FS, trace := [] } (Event.stat pD)) :=
  (c8_ensure_total c3Host { fs := c3FS, trace := [] }
    (addEvent { fs := c3FS, trace := [] } (Event.stat pD)) pD ['E']).1 (by decide)

/-- C9: the existence check in ensureDestinationDirectory never verifies that
the entry is a directory: with a regular file occupying the destination path,
it reports success without any creation attempt, and the batch proceeds to
copy an item into the non-directory destination. -/
theorem c9_file_destination (h : Host) (w : World) (d u : Path) (k : Nat)
    (hfile : lookupFS w.fs d = some (Entry.file k))
    (hdest : getDestinationUri h = some d)
    (habs : lookupFS w.fs (targetOf d u) = none)
    (hok : h.copyErr u (targetOf d u) = none) :
    ensureDestinationDirectory h w d = (true, addEvent w (Event.stat d))
    ∧ copyToDestination h w [u]
      = addEvent (successStep d (addEvent w (Event.stat d)) u)
          (Event.message (Msg.copiedSummary 1
            (formatDestinationForDisplay h.homedir d) none)) := by
  have hens : ensureDestinationDirectory h w d = (true, addEvent w (Event.stat d)) := by
    unfold ensureDestinationDirectory
    simp [addEvent, hfile]
  refine ⟨hens, ?_⟩
  unfold copyToDestination
  rw [hdest]
  simp only [hens]
  have h1 : copySingleItem h (addEvent w (Event.stat d)) u d
      = (CopyResult.success, successStep d (addEvent w (Event.stat d)) u) := by
    rw [copySingleItem_new_ok h (addEvent w (Event.stat d)) u d habs hok]
    rfl
  simp [copyLoop, h1]

def c9FS : FS := [(pD, Entry.file 7), (pA, Entry.file 1)]

/-- Witness for C9: the destination path holds a regular file, yet the run
succeeds and copies into it. -/
theorem c9_file_destination_witness :
    ensureDestinationDirectory c3Host { fs := c9FS, trace := [] } pD
      = (true, addEvent { fs := c9FS, trace := [] } (Event.stat pD))
    ∧ copyToDestination c3Host { fs := c9FS, trace := [] } [pA]
      = addEvent (successStep pD (addEvent { fs := c9FS, trace := [] } (Event.stat pD)) pA)
          (Event.message (Msg.copiedSummary 1
            (formatDestinationForDisplay c3Host.homedir pD) none)) :=
  c9_file_destination c3Host { fs := c9FS, trace := [] } pD pA 7
    (by decide) (by decide) (by decide) (by decide)

/-- C10: a defined multi-selection list takes absolute precedence over the
single uri, an undefined list falls back to the single uri or to nothing, and
the no-selection warning with no copy happens exactly when the resulting
target list is empty — including a defined empty list alongside a valid
single uri. -/
theorem c10_target_selection (h : Host) (w : World) (uri : Option Path)
    (uris : Option (List Path)) (l : List Path) (u : Path) :
    selectTargets uri (some l) = l
    ∧ selectTargets (some u) none = [u]
    ∧ selectTargets none none = []
    ∧ commandHandler h w (some u) (some [])
        = addEvent w (Event.message Msg.noSelection)
    ∧ (selectTargets uri uris = [] →
        commandHandler h w uri uris = addEvent w (Event.message Msg.noSelection))
    ∧ (selectTargets uri uris ≠ [] →
        commandHandler h w uri uris = copyToDestination h w (selectTargets uri uris)) := by
  refine ⟨rfl, rfl, rfl, rfl, ?_, ?_⟩
  · intro he
    unfold commandHandler
    rw [he]
    rfl
  · intro he
    unfold commandHandler
    rw [if_neg (by simpa [List.length_eq_zero] using he)]

/-- Witness for C10: a defined empty multi-selection list beside a valid
single uri yields the warning and no copy. -/
theorem c10_target_selection_witness :
    commandHandler c3Host { fs := c3FS, trace := [] } (some pA) (some [])
      = addEvent { fs := c3FS, trace := [] } (Event.message Msg.noSelection) :=
  (c10_target_selection c3Host { fs := c3FS, trace := [] } (some pA)
    (some []) [] pA).2.2.2.1

end CopyTo
